import Mathlib

/-!
Shallow embedding of the numeric kernels of the INT3404E_20 homework repository
(files `HW2/ex1.py` and `HW2/ex212.py`) and proofs about them.

Modelling conventions:
* A grayscale image (`numpy` 2-D integer array) is a `Grid`: dimensions plus a
  total indexing function `ℕ → ℕ → ℕ`.  Values outside the dimensions are
  junk and never constrained.
* `numpy` float64 arithmetic is modelled by exact real arithmetic; `np.log10`
  is modelled on the extended reals (`EReal`), with `np.log10 0 = -∞` as the
  float semantics gives.
* Assigning a nonnegative float into a `uint8` array truncates toward zero,
  i.e. takes the floor; on naturals this is `Nat` division.
* `numpy` slicing `a[x : x + k]` clips at the array end; the `window`
  definition reproduces that clipping.
* `numpy` broadcasting of a binary operation on two 2-D arrays is reproduced
  by `bcast` / `compatDim`; a broadcasting failure (`ValueError`) is the
  `none` branch of `psnr`.
-/

namespace HW2

/-- A 2-D grid of natural-number samples (a grayscale `numpy` array):
`H` rows, `W` columns, and a total indexing function whose values at
out-of-range indices are irrelevant junk. -/
structure Grid where
  H : ℕ
  W : ℕ
  data : ℕ → ℕ → ℕ

/-- Two grids are the same image: same shape and same samples at every
in-range index. -/
def Grid.Equiv (a b : Grid) : Prop :=
  a.H = b.H ∧ a.W = b.W ∧ ∀ i j, i < a.H → j < a.W → a.data i j = b.data i j

/-- Embedding of `padding_img` (HW2/ex1.py).  The five stages mirror the five
`numpy` assignments: zero initialisation, copy of the original into the
center, top fill from row 0, bottom fill from row `height-1`, left fill from
the already-written column `padding_size`, right fill from the
already-written column `padding_size + width - 1`. -/
def padding_img (img : Grid) (filter_size : ℕ) : Grid :=
  let height := img.H
  let width := img.W
  let padding_size := filter_size / 2
  let center : ℕ → ℕ → ℕ := fun i j =>
    if padding_size ≤ i ∧ i < padding_size + height ∧
        padding_size ≤ j ∧ j < padding_size + width then
      img.data (i - padding_size) (j - padding_size)
    else 0
  let top : ℕ → ℕ → ℕ := fun i j =>
    if i < padding_size ∧ padding_size ≤ j ∧ j < padding_size + width then
      img.data 0 (j - padding_size)
    else center i j
  let bottom : ℕ → ℕ → ℕ := fun i j =>
    if padding_size + height ≤ i ∧ padding_size ≤ j ∧ j < padding_size + width then
      img.data (height - 1) (j - padding_size)
    else top i j
  let left : ℕ → ℕ → ℕ := fun i j =>
    if j < padding_size then bottom i padding_size else bottom i j
  let right : ℕ → ℕ → ℕ := fun i j =>
    if padding_size + width ≤ j then left i (padding_size + width - 1) else left i j
  ⟨height + 2 * padding_size, width + 2 * padding_size, right⟩

/-- The flattened list of samples of the slice
`g[x : x + fs, y : y + fs]`, with `numpy`'s clipping of a slice at the
array boundary. -/
def window (g : Grid) (x y fs : ℕ) : List ℕ :=
  ((List.range (min (x + fs) g.H - x)).map (fun di =>
    (List.range (min (y + fs) g.W - y)).map (fun dj =>
      g.data (x + di) (y + dj)))).flatten

/-- Sum of a list of naturals, as a left fold (the accumulation `np.sum` /
`np.mean` perform). -/
def listSum (l : List ℕ) : ℕ :=
  l.foldl (fun a b => a + b) 0

/-- `np.median` of a list of naturals followed by truncation into an integer
array: sort ascending, take the middle element for odd length, the floor of
the average of the two middle elements for even length. -/
def medianFloor (l : List ℕ) : ℕ :=
  if l.length % 2 = 1 then
    (List.insertionSort (fun a b => a ≤ b) l).getD (l.length / 2) 0
  else
    ((List.insertionSort (fun a b => a ≤ b) l).getD (l.length / 2 - 1) 0 +
      (List.insertionSort (fun a b => a ≤ b) l).getD (l.length / 2) 0) / 2

/-- Embedding of `mean_filter` (HW2/ex1.py).  The loop variable `x` runs over
`pad_size ≤ x < padded_height - pad_size` and writes to output index
`x - pad_size`, so output pixel `(ox, oy)` receives the window
`padded[ox+p : ox+p+fs, oy+p : oy+p+fs]` (clipped at the padded boundary);
`np.mean` into a `uint8` array is sum divided by count, floored. -/
def mean_filter (img : Grid) (filter_size : ℕ) : Grid :=
  let padded_img := padding_img img filter_size
  let pad_size := filter_size / 2
  ⟨img.H, img.W, fun ox oy =>
    let w := window padded_img (ox + pad_size) (oy + pad_size) filter_size
    listSum w / w.length⟩

/-- Embedding of `median_filter` (HW2/ex1.py): same window selection as
`mean_filter`, with `np.median` (then truncation) in place of `np.mean`. -/
def median_filter (img : Grid) (filter_size : ℕ) : Grid :=
  let padded_img := padding_img img filter_size
  let pad_size := filter_size / 2
  ⟨img.H, img.W, fun ox oy =>
    medianFloor (window padded_img (ox + pad_size) (oy + pad_size) filter_size)⟩

/-- `numpy` broadcasting compatibility of one dimension pair: the lengths are
equal or one of them is `1`. -/
def compatDim (a b : ℕ) : Prop := a = b ∨ a = 1 ∨ b = 1

instance (a b : ℕ) : Decidable (compatDim a b) := by
  unfold compatDim; infer_instance

/-- Index into a broadcast dimension: a length-1 axis is read at `0`. -/
def bcast (n i : ℕ) : ℕ := if n = 1 then 0 else i

/-- The float `np.log10` on nonnegative inputs, valued in the extended reals:
`log10 0 = -∞`, and the real logarithm elsewhere. -/
noncomputable def flog10 (x : ℝ) : EReal :=
  if x = 0 then (⊥ : EReal) else ((Real.logb 10 x : ℝ) : EReal)

/-- Embedding of `psnr` (HW2/ex1.py).  Both inputs are cast to float64; the
difference is taken under `numpy` broadcasting (a `ValueError` for
non-broadcastable shapes is the `none` branch); `mse` is the mean of the
squared differences; `max_pixel` is the maximum over the ground-truth grid;
the score is `20*log10(max_pixel) - 10*log10(mse)` in float semantics
(`EReal`). -/
noncomputable def psnr (gt_img smooth_img : Grid) : Option EReal :=
  if compatDim gt_img.H smooth_img.H ∧ compatDim gt_img.W smooth_img.W then
    some (((20 : ℝ) : EReal) * flog10
        ((((List.range gt_img.H).foldl (fun a i =>
          (List.range gt_img.W).foldl (fun b j => max b (gt_img.data i j)) a) 0 : ℕ) : ℝ)) -
      ((10 : ℝ) : EReal) * flog10
        (((List.range (max gt_img.H smooth_img.H)).foldl (fun a i =>
            a + (List.range (max gt_img.W smooth_img.W)).foldl (fun b j =>
              b + ((gt_img.data (bcast gt_img.H i) (bcast gt_img.W j) : ℝ) -
                (smooth_img.data (bcast smooth_img.H i) (bcast smooth_img.W j) : ℝ)) ^ 2) 0) 0) /
          ((max gt_img.H smooth_img.H * max gt_img.W smooth_img.W : ℕ) : ℝ)))
  else none

/-- A 2-D grid of complex samples (the transform outputs of HW2/ex212.py). -/
structure CGrid where
  H : ℕ
  W : ℕ
  data : ℕ → ℕ → ℂ

/-- Two complex grids agree: same shape and same samples at every in-range
index. -/
def CGrid.Equiv (a b : CGrid) : Prop :=
  a.H = b.H ∧ a.W = b.W ∧ ∀ i j, i < a.H → j < a.W → a.data i j = b.data i j

/-- A 2-D grid of real samples (the grayscale input of `DFT_2D`). -/
structure RGrid where
  H : ℕ
  W : ℕ
  data : ℕ → ℕ → ℝ

/-- The complex exponential factor `np.exp(-2j * np.pi * k * n / N)` of the
naive DFT. -/
noncomputable def cexpTerm (N k n : ℕ) : ℂ :=
  Complex.exp (-2 * Complex.I * (Real.pi : ℂ) * (k : ℂ) * (n : ℂ) / (N : ℂ))

/-- Embedding of `DFT_slow` (HW2/ex212.py): entry `k` of the output is the
accumulation, over `n` below `N = len(data)`, of
`1/N * data[n] * np.exp(-2j*np.pi*k*n/N)` starting from the zero
initialisation of `np.zeros`. -/
noncomputable def DFT_slow (data : List ℂ) : List ℂ :=
  (List.range data.length).map (fun k =>
    (List.range data.length).foldl
      (fun acc n => acc + 1 / (data.length : ℂ) * data.getD n 0 *
        cexpTerm data.length k n) 0)

/-- Embedding of `DFT_2D` (HW2/ex212.py): `row_fft` applies `DFT_slow` to each
row of the (real) grayscale grid; `row_col_fft` applies `DFT_slow` to each
column of `row_fft`.  Both are returned, as in the source. -/
noncomputable def DFT_2D (gray_img : RGrid) : CGrid × CGrid :=
  let row_fft : CGrid := ⟨gray_img.H, gray_img.W, fun i j =>
    (DFT_slow ((List.range gray_img.W).map (fun n => ((gray_img.data i n : ℝ) : ℂ)))).getD j 0⟩
  let row_col_fft : CGrid := ⟨gray_img.H, gray_img.W, fun i j =>
    (DFT_slow ((List.range gray_img.H).map (fun m => row_fft.data m j))).getD i 0⟩
  (row_fft, row_col_fft)

/-- Comparison definition for the separability claim, following the spec's
words: apply `DFT_slow` to every column of the grid first, then to every row
of the result. -/
noncomputable def DFT_2D_colsFirst (gray_img : RGrid) : CGrid :=
  let col_fft : CGrid := ⟨gray_img.H, gray_img.W, fun i j =>
    (DFT_slow ((List.range gray_img.H).map (fun m => ((gray_img.data m j : ℝ) : ℂ)))).getD i 0⟩
  ⟨gray_img.H, gray_img.W, fun i j =>
    (DFT_slow ((List.range gray_img.W).map (fun n => col_fft.data i n))).getD j 0⟩

/-- Modelled from the spec (§4.2, §9): the *centered* mean filter the spec
describes, `output[x,y] = floor(mean of img[clamp(x+di-p), clamp(y+dj-p)]
for di,dj < fs)`.  Comparison definition only; the source code's window is
not this one. -/
def mean_filter_centered (img : Grid) (filter_size : ℕ) : Grid :=
  let p := filter_size / 2
  ⟨img.H, img.W, fun x y =>
    listSum (((List.range filter_size).map (fun di =>
      (List.range filter_size).map (fun dj =>
        img.data (min (x + di - p) (img.H - 1)) (min (y + dj - p) (img.W - 1))))).flatten) /
      (filter_size * filter_size)⟩

/-- Modelled from the spec (§4.2, §9): the *centered* median filter the spec
describes.  Comparison definition only. -/
def median_filter_centered (img : Grid) (filter_size : ℕ) : Grid :=
  let p := filter_size / 2
  ⟨img.H, img.W, fun x y =>
    medianFloor (((List.range filter_size).map (fun di =>
      (List.range filter_size).map (fun dj =>
        img.data (min (x + di - p) (img.H - 1)) (min (y + dj - p) (img.W - 1))))).flatten)⟩

/-! ### Helper lemmas -/

theorem padding_img_H (img : Grid) (fs : ℕ) :
    (padding_img img fs).H = img.H + 2 * (fs / 2) := rfl

theorem padding_img_W (img : Grid) (fs : ℕ) :
    (padding_img img fs).W = img.W + 2 * (fs / 2) := rfl

/-- The staged border assignments of `padding_img` realise clamp-to-edge
indexing: every sample of the padded grid is the source sample at the
coordinates clamped into range (truncated subtraction clamps below at `0`,
`min` clamps above at the last index). -/
theorem padding_img_data (img : Grid) (fs : ℕ) (hH : 1 ≤ img.H) (hW : 1 ≤ img.W)
    (i j : ℕ) :
    (padding_img img fs).data i j =
      img.data (min (i - fs / 2) (img.H - 1)) (min (j - fs / 2) (img.W - 1)) := by
  simp only [padding_img]
  split_ifs <;> (try congr 1 <;> omega)

/-- A left fold that accumulates `f` over `List.range n` is the `Finset` sum. -/
theorem foldl_add_range {M : Type*} [AddCommMonoid M] (f : ℕ → M) :
    ∀ (n : ℕ) (a : M),
      (List.range n).foldl (fun b i => b + f i) a = a + ∑ i ∈ Finset.range n, f i
  | 0, a => by simp
  | n + 1, a => by
    rw [List.range_succ, List.foldl_append, foldl_add_range f n a]
    simp [Finset.sum_range_succ, add_assoc]

/-- A left fold that maximises `f` over `List.range n` is the `Finset` sup. -/
theorem foldl_max_range (f : ℕ → ℕ) :
    ∀ (n : ℕ) (a : ℕ),
      (List.range n).foldl (fun b i => max b (f i)) a = max a ((Finset.range n).sup f)
  | 0, a => by simp
  | n + 1, a => by
    rw [List.range_succ, List.foldl_append, foldl_max_range f n a]
    simp only [List.foldl_cons, List.foldl_nil, Finset.range_succ, Finset.sup_insert,
      sup_eq_max]
    omega

theorem getD_map_range {α : Type*} (f : ℕ → α) (d : α) {k n : ℕ} (h : k < n) :
    ((List.range n).map f).getD k d = f k := by
  rw [List.getD_eq_getElem?_getD]
  simp [List.getElem?_map, List.getElem?_range, h]

theorem listSum_eq_sum : ∀ l : List ℕ, listSum l = l.sum := by
  have aux : ∀ (l : List ℕ) (a : ℕ), l.foldl (fun x y => x + y) a = a + l.sum := by
    intro l
    induction l with
    | nil => simp
    | cons x l ih => intro a; simp [List.foldl_cons, ih, add_assoc]
  intro l; simpa using aux l 0

theorem listSum_const {c : ℕ} : ∀ {l : List ℕ}, (∀ a ∈ l, a = c) → listSum l = c * l.length := by
  intro l h
  rw [listSum_eq_sum]
  induction l with
  | nil => simp
  | cons x l ih =>
    have hx := h x (by simp)
    have hl : ∀ a ∈ l, a = c := fun a ha => h a (by simp [ha])
    simp [hx, ih hl, Nat.mul_succ, Nat.add_comm]

theorem listSum_div_length_const {l : List ℕ} {c : ℕ}
    (h : ∀ a ∈ l, a = c) (hne : l ≠ []) : listSum l / l.length = c := by
  have hlen : 0 < l.length := List.length_pos.2 hne
  rw [listSum_const h, Nat.mul_div_cancel _ hlen]

theorem getD_eq_const {l : List ℕ} {c : ℕ} (h : ∀ a ∈ l, a = c) {k : ℕ}
    (hk : k < l.length) : l.getD k 0 = c := by
  rw [List.getD_eq_getElem?_getD, List.getElem?_eq_getElem hk]
  exact h _ (List.getElem_mem hk)

theorem medianFloor_const {l : List ℕ} {c : ℕ} (h : ∀ a ∈ l, a = c) (hne : l ≠ []) :
    medianFloor l = c := by
  have hlen : 0 < l.length := List.length_pos.2 hne
  have hs : ∀ a ∈ List.insertionSort (fun a b => a ≤ b) l, a = c := fun a ha =>
    h a ((List.perm_insertionSort _ l).mem_iff.1 ha)
  have hslen : (List.insertionSort (fun a b => a ≤ b) l).length = l.length :=
    (List.perm_insertionSort _ l).length_eq
  unfold medianFloor
  split_ifs with hpar
  · exact getD_eq_const hs (by omega)
  · rw [getD_eq_const hs (by omega), getD_eq_const hs (by omega)]
    omega

/-- Every sample of a `window` is a sample of the underlying grid at an
offset position. -/
theorem mem_window {g : Grid} {x y fs a : ℕ} (h : a ∈ window g x y fs) :
    ∃ di dj, a = g.data (x + di) (y + dj) := by
  simp only [window, List.mem_flatten, List.mem_map, List.mem_range] at h
  obtain ⟨l, ⟨di, _, rfl⟩, hl⟩ := h
  obtain ⟨dj, _, rfl⟩ := by simpa only [List.mem_map, List.mem_range] using hl
  exact ⟨di, dj, rfl⟩

/-- A window starting strictly inside the grid is non-empty when
`filter_size ≥ 1`. -/
theorem window_ne_nil {g : Grid} {x y fs : ℕ} (hx : x < g.H) (hy : y < g.W)
    (hfs : 1 ≤ fs) : window g x y fs ≠ [] := by
  apply List.ne_nil_of_mem (a := g.data (x + 0) (y + 0))
  simp only [window, List.mem_flatten, List.mem_map, List.mem_range]
  exact ⟨_, ⟨0, by omega, rfl⟩, by
    simp only [List.mem_map, List.mem_range]
    exact ⟨0, by omega, rfl⟩⟩

theorem DFT_slow_length (data : List ℂ) : (DFT_slow data).length = data.length := by
  simp [DFT_slow]

/-- The accumulation loop of `DFT_slow` computes, at each index `k < N`, the
sum over `n < N` of `1/N * data[n] * exp(-2πi·k·n/N)`. -/
theorem DFT_slow_getD (data : List ℂ) {k : ℕ} (h : k < data.length) :
    (DFT_slow data).getD k 0 =
      ∑ n ∈ Finset.range data.length,
        1 / (data.length : ℂ) * data.getD n 0 * cexpTerm data.length k n := by
  rw [DFT_slow, getD_map_range _ _ h, foldl_add_range]
  simp

/-- The nested accumulation `np.mean` performs over a 2-D array is the double
`Finset` sum. -/
theorem psnr_mse_fold (d : ℕ → ℕ → ℝ) (H W : ℕ) :
    (List.range H).foldl
      (fun a i => a + (List.range W).foldl (fun b j => b + d i j) 0) 0 =
      ∑ i ∈ Finset.range H, ∑ j ∈ Finset.range W, d i j := by
  rw [foldl_add_range (fun i => (List.range W).foldl (fun b j => b + d i j) 0) H 0,
    zero_add]
  exact Finset.sum_congr rfl fun i _ => by rw [foldl_add_range (fun j => d i j) W 0, zero_add]

/-- The nested maximisation `np.max` performs over a 2-D array is the double
`Finset` sup. -/
theorem psnr_max_fold (g : ℕ → ℕ → ℕ) (W : ℕ) :
    ∀ H : ℕ, (List.range H).foldl
      (fun a i => (List.range W).foldl (fun b j => max b (g i j)) a) 0 =
      (Finset.range H).sup (fun i => (Finset.range W).sup (g i))
  | 0 => by simp
  | H + 1 => by
    rw [List.range_succ, List.foldl_append, psnr_max_fold g W H]
    simp only [List.foldl_cons, List.foldl_nil]
    rw [foldl_max_range (g H) W, Finset.range_succ, Finset.sup_insert, sup_eq_max]
    omega

theorem bcast_lt {n i : ℕ} (h : i < n) : bcast n i = i := by
  unfold bcast
  split_ifs with h1
  · omega
  · rfl

/-- For same-shaped inputs, `psnr` computes exactly
`20*log10(max gt) - 10*log10(mean (gt - smooth)^2)` (float semantics, in
`EReal`). -/
theorem psnr_eq_of_shape (gt_img smooth_img : Grid)
    (hH : gt_img.H = smooth_img.H) (hW : gt_img.W = smooth_img.W) :
    psnr gt_img smooth_img = some (
      ((20 : ℝ) : EReal) * flog10 (((Finset.range gt_img.H).sup
        (fun i => (Finset.range gt_img.W).sup (gt_img.data i)) : ℕ) : ℝ) -
      ((10 : ℝ) : EReal) * flog10 (
        (∑ i ∈ Finset.range gt_img.H, ∑ j ∈ Finset.range gt_img.W,
          ((gt_img.data i j : ℝ) - (smooth_img.data i j : ℝ)) ^ 2) /
        ((gt_img.H * gt_img.W : ℕ) : ℝ))) := by
  unfold psnr
  rw [if_pos ⟨Or.inl hH, Or.inl hW⟩, psnr_max_fold, psnr_mse_fold, ← hH, ← hW,
    max_self, max_self]
  have hsum : ∑ i ∈ Finset.range gt_img.H, ∑ j ∈ Finset.range gt_img.W,
      ((gt_img.data (bcast gt_img.H i) (bcast gt_img.W j) : ℝ) -
        (smooth_img.data (bcast gt_img.H i) (bcast gt_img.W j) : ℝ)) ^ 2 =
      ∑ i ∈ Finset.range gt_img.H, ∑ j ∈ Finset.range gt_img.W,
      ((gt_img.data i j : ℝ) - (smooth_img.data i j : ℝ)) ^ 2 :=
    Finset.sum_congr rfl fun i hi => Finset.sum_congr rfl fun j hj => by
      rw [bcast_lt (Finset.mem_range.1 hi), bcast_lt (Finset.mem_range.1 hj)]
  rw [hsum]

/-! ### Claim theorems -/

/-- C1: for every non-empty grid and odd `filter_size` with
`p = filter_size / 2`, `padding_img` returns a grid of shape
`(H + 2p, W + 2p)` every sample of which is the source sample at the clamped
coordinates `img[clamp(i-p,0,H-1), clamp(j-p,0,W-1)]` (truncated
ℕ-subtraction clamps below at 0, `min` clamps above at the last index); in
particular the center `(H, W)` region reproduces the input exactly, and
border rows/columns and corners replicate the nearest edge samples, as the
clamp rule implies. -/
theorem padding_img_clamp (img : Grid) (fs : ℕ) (hodd : fs % 2 = 1)
    (hH : 1 ≤ img.H) (hW : 1 ≤ img.W) :
    (padding_img img fs).H = img.H + 2 * (fs / 2) ∧
    (padding_img img fs).W = img.W + 2 * (fs / 2) ∧
    (∀ i j, (padding_img img fs).data i j =
      img.data (min (i - fs / 2) (img.H - 1)) (min (j - fs / 2) (img.W - 1))) ∧
    (∀ x y, x < img.H → y < img.W →
      (padding_img img fs).data (x + fs / 2) (y + fs / 2) = img.data x y) := by
  refine ⟨rfl, rfl, fun i j => padding_img_data img fs hH hW i j, fun x y hx hy => ?_⟩
  rw [padding_img_data img fs hH hW]
  congr 1 <;> omega

/-- Concrete 2-by-2 grid used to instantiate the padding claim. -/
def gridW1 : Grid := ⟨2, 2, fun i j => 10 * i + j⟩

/-- Witness for C1 at a concrete 2-by-2 grid with `filter_size = 3`. -/
theorem padding_img_clamp_witness :
    (3 % 2 = 1 ∧ 1 ≤ gridW1.H ∧ 1 ≤ gridW1.W) ∧
    ((padding_img gridW1 3).H = gridW1.H + 2 * (3 / 2) ∧
     (padding_img gridW1 3).W = gridW1.W + 2 * (3 / 2) ∧
     (∀ i j, (padding_img gridW1 3).data i j =
       gridW1.data (min (i - 3 / 2) (gridW1.H - 1)) (min (j - 3 / 2) (gridW1.W - 1))) ∧
     (∀ x y, x < gridW1.H → y < gridW1.W →
       (padding_img gridW1 3).data (x + 3 / 2) (y + 3 / 2) = gridW1.data x y)) :=
  ⟨⟨by decide, by decide, by decide⟩,
    padding_img_clamp gridW1 3 (by decide) (by decide) (by decide)⟩

/-- Concrete 3-by-3 grid `[[0,0,9],[0,9,9],[9,9,9]]` on which the filters'
mis-centred windows are visible. -/
def imgC2 : Grid := ⟨3, 3, fun i j => if 2 ≤ i + j then 9 else 0⟩

/-- C2 (refuting evaluation): the filters' window for output pixel `(x, y)`
is `padded[x+p : x+p+fs, y+p : y+p+fs]` — centred at input pixel
`(x+p, y+p)`, not at `(x, y)`.  On the grid `[[0,0,9],[0,9,9],[9,9,9]]` with
`filter_size = 3`, the code's output at `(0, 0)` is the mean (resp. median)
of the whole image, `6` (resp. `9`), whereas the mean (resp. median) of the
neighborhood centred at `(0, 0)` in the replicate-padded input is `1`
(resp. `0`). -/
theorem filter_window_off_center :
    (mean_filter imgC2 3).data 0 0 = 6 ∧
    (mean_filter_centered imgC2 3).data 0 0 = 1 ∧
    (median_filter imgC2 3).data 0 0 = 9 ∧
    (median_filter_centered imgC2 3).data 0 0 = 0 := by
  decide

/-- C7: mean and median filtering leave a constant-valued grid unchanged,
for every odd filter size. -/
theorem filters_const_fixed (img : Grid) (fs c : ℕ) (hodd : fs % 2 = 1)
    (hconst : ∀ i j, i < img.H → j < img.W → img.data i j = c) :
    Grid.Equiv (mean_filter img fs) img ∧ Grid.Equiv (median_filter img fs) img := by
  have hfs : 1 ≤ fs := by omega
  have hwin : ∀ i j, i < img.H → j < img.W →
      (∀ a ∈ window (padding_img img fs) (i + fs / 2) (j + fs / 2) fs, a = c) ∧
      window (padding_img img fs) (i + fs / 2) (j + fs / 2) fs ≠ [] := by
    intro i j hi hj
    have hH : 1 ≤ img.H := by omega
    have hW : 1 ≤ img.W := by omega
    refine ⟨fun a ha => ?_, ?_⟩
    · obtain ⟨di, dj, rfl⟩ := mem_window ha
      rw [padding_img_data img fs hH hW]
      exact hconst _ _ (by omega) (by omega)
    · exact window_ne_nil (g := padding_img img fs)
        (show i + fs / 2 < img.H + 2 * (fs / 2) by omega)
        (show j + fs / 2 < img.W + 2 * (fs / 2) by omega) hfs
  constructor
  · refine ⟨rfl, rfl, fun i j hi hj => ?_⟩
    have hi' : i < img.H := hi
    have hj' : j < img.W := hj
    obtain ⟨hall, hne⟩ := hwin i j hi' hj'
    show listSum (window (padding_img img fs) (i + fs / 2) (j + fs / 2) fs) /
      (window (padding_img img fs) (i + fs / 2) (j + fs / 2) fs).length = img.data i j
    rw [listSum_div_length_const hall hne, hconst i j hi' hj']
  · refine ⟨rfl, rfl, fun i j hi hj => ?_⟩
    have hi' : i < img.H := hi
    have hj' : j < img.W := hj
    obtain ⟨hall, hne⟩ := hwin i j hi' hj'
    show medianFloor (window (padding_img img fs) (i + fs / 2) (j + fs / 2) fs) = img.data i j
    rw [medianFloor_const hall hne, hconst i j hi' hj']

/-- Concrete constant 2-by-2 grid of value 5. -/
def gridConst : Grid := ⟨2, 2, fun _ _ => 5⟩

/-- Witness for C7 at a concrete constant grid with `filter_size = 3`. -/
theorem filters_const_fixed_witness :
    (3 % 2 = 1 ∧ ∀ i j, i < gridConst.H → j < gridConst.W → gridConst.data i j = 5) ∧
    (Grid.Equiv (mean_filter gridConst 3) gridConst ∧
      Grid.Equiv (median_filter gridConst 3) gridConst) :=
  ⟨⟨by decide, fun _ _ _ _ => rfl⟩,
    filters_const_fixed gridConst 3 5 (by decide) (fun _ _ _ _ => rfl)⟩

/-- Concrete 1-by-1 grid of value 7. -/
def gridOne : Grid := ⟨1, 1, fun _ _ => 7⟩

/-- C9 (refuting evaluation): no validation of `filter_size` exists; with the
even size `filter_size = 2` every operation computes and returns a result —
padding a 1-by-1 grid of 7 yields a 3-by-3 grid of 7s, and both filters
return the 1-by-1 grid of 7 — rather than raising any error. -/
theorem even_filter_size_counterexample :
    (padding_img gridOne 2).H = 3 ∧ (padding_img gridOne 2).W = 3 ∧
    (padding_img gridOne 2).data 0 0 = 7 ∧
    (padding_img gridOne 2).data 2 2 = 7 ∧
    (mean_filter gridOne 2).H = 1 ∧ (mean_filter gridOne 2).W = 1 ∧
    (mean_filter gridOne 2).data 0 0 = 7 ∧
    (median_filter gridOne 2).H = 1 ∧ (median_filter gridOne 2).W = 1 ∧
    (median_filter gridOne 2).data 0 0 = 7 := by
  decide

/-- C9 (amended): the operations perform no `filter_size` validation; for an
even `filter_size` on a non-empty grid they compute and return grids —
`padding_img` the `(H + 2p, W + 2p)` clamp-padded grid, the filters grids of
the input shape. -/
theorem even_filter_size_returns (img : Grid) (fs : ℕ) (heven : fs % 2 = 0)
    (hH : 1 ≤ img.H) (hW : 1 ≤ img.W) :
    (padding_img img fs).H = img.H + 2 * (fs / 2) ∧
    (padding_img img fs).W = img.W + 2 * (fs / 2) ∧
    (∀ i j, (padding_img img fs).data i j =
      img.data (min (i - fs / 2) (img.H - 1)) (min (j - fs / 2) (img.W - 1))) ∧
    (mean_filter img fs).H = img.H ∧ (mean_filter img fs).W = img.W ∧
    (median_filter img fs).H = img.H ∧ (median_filter img fs).W = img.W :=
  ⟨rfl, rfl, padding_img_data img fs hH hW, rfl, rfl, rfl, rfl⟩

/-- Witness for the amended C9 statement at a concrete grid and
`filter_size = 2`. -/
theorem even_filter_size_returns_witness :
    (2 % 2 = 0 ∧ 1 ≤ gridW1.H ∧ 1 ≤ gridW1.W) ∧
    ((padding_img gridW1 2).H = gridW1.H + 2 * (2 / 2) ∧
     (padding_img gridW1 2).W = gridW1.W + 2 * (2 / 2) ∧
     (∀ i j, (padding_img gridW1 2).data i j =
       gridW1.data (min (i - 2 / 2) (gridW1.H - 1)) (min (j - 2 / 2) (gridW1.W - 1))) ∧
     (mean_filter gridW1 2).H = gridW1.H ∧ (mean_filter gridW1 2).W = gridW1.W ∧
     (median_filter gridW1 2).H = gridW1.H ∧ (median_filter gridW1 2).W = gridW1.W) :=
  ⟨⟨by decide, by decide, by decide⟩,
    even_filter_size_returns gridW1 2 (by decide) (by decide) (by decide)⟩

/-- C3: for every sequence of length at least 1, `DFT_slow` returns a complex
sequence of the same length whose `k`-th entry is the 1/N-normalised forward
DFT `(1/N) * Σ_{n<N} data[n] * exp(-2πi·k·n/N)`. -/
theorem DFT_slow_normalized (data : List ℂ) (h : 1 ≤ data.length) :
    (DFT_slow data).length = data.length ∧
    ∀ k, k < data.length → (DFT_slow data).getD k 0 =
      1 / (data.length : ℂ) *
        ∑ n ∈ Finset.range data.length,
          data.getD n 0 * Complex.exp
            (-(2 * (Real.pi : ℂ) * Complex.I * (k : ℂ) * (n : ℂ)) / (data.length : ℂ)) := by
  refine ⟨DFT_slow_length data, fun k hk => ?_⟩
  rw [DFT_slow_getD data hk, Finset.mul_sum]
  refine Finset.sum_congr rfl fun n hn => ?_
  rw [cexpTerm, show -2 * Complex.I * (Real.pi : ℂ) * (k : ℂ) * (n : ℂ) / (data.length : ℂ) =
    -(2 * (Real.pi : ℂ) * Complex.I * (k : ℂ) * (n : ℂ)) / (data.length : ℂ) from by ring]
  ring

/-- Witness for C3 at the concrete one-element sequence `[1]`. -/
theorem DFT_slow_normalized_witness :
    1 ≤ ([(1 : ℂ)]).length ∧
    ((DFT_slow [(1 : ℂ)]).length = ([(1 : ℂ)]).length ∧
     ∀ k, k < ([(1 : ℂ)]).length → (DFT_slow [(1 : ℂ)]).getD k 0 =
       1 / (([(1 : ℂ)]).length : ℂ) *
         ∑ n ∈ Finset.range ([(1 : ℂ)]).length,
           ([(1 : ℂ)]).getD n 0 * Complex.exp
             (-(2 * (Real.pi : ℂ) * Complex.I * (k : ℂ) * (n : ℂ)) / (([(1 : ℂ)]).length : ℂ))) :=
  ⟨by simp, DFT_slow_normalized [(1 : ℂ)] (by simp)⟩

/-- Applying `DFT_slow` along one axis and then along the other unfolds to an
explicit double sum. -/
theorem DFT_double (A : ℕ → ℕ → ℂ) (H W k l : ℕ) (hk : k < H) (hl : l < W) :
    (DFT_slow ((List.range H).map (fun m =>
      (DFT_slow ((List.range W).map (fun n => A m n))).getD l 0))).getD k 0 =
    ∑ m ∈ Finset.range H, ∑ n ∈ Finset.range W,
      1 / (H : ℂ) * (1 / (W : ℂ) * A m n * cexpTerm W l n) * cexpTerm H k m := by
  rw [DFT_slow_getD _ (by simpa using hk)]
  simp only [List.length_map, List.length_range]
  refine Finset.sum_congr rfl fun m hm => ?_
  rw [getD_map_range _ _ (Finset.mem_range.1 hm), DFT_slow_getD _ (by simpa using hl)]
  simp only [List.length_map, List.length_range]
  rw [Finset.mul_sum, Finset.sum_mul]
  refine Finset.sum_congr rfl fun n hn => ?_
  rw [getD_map_range _ _ (Finset.mem_range.1 hn)]

/-- C4: the 2-D transform is separable — the second return value of `DFT_2D`
(1-D DFT of every row, then of every column of the result) agrees with
applying the 1-D DFT to every column first and then to every row, exactly
(hence in particular within any floating-point tolerance), on every
rectangular real-valued grid. -/
theorem DFT_2D_separable (g : RGrid) :
    CGrid.Equiv (DFT_2D g).2 (DFT_2D_colsFirst g) := by
  refine ⟨rfl, rfl, fun k l hk hl => ?_⟩
  have hk' : k < g.H := hk
  have hl' : l < g.W := hl
  show (DFT_slow ((List.range g.H).map (fun m =>
      (DFT_slow ((List.range g.W).map (fun n => ((g.data m n : ℝ) : ℂ)))).getD l 0))).getD k 0 =
    (DFT_slow ((List.range g.W).map (fun n =>
      (DFT_slow ((List.range g.H).map (fun m => ((g.data m n : ℝ) : ℂ)))).getD k 0))).getD l 0
  rw [DFT_double (fun m n => ((g.data m n : ℝ) : ℂ)) g.H g.W k l hk' hl',
    DFT_double (fun n m => ((g.data m n : ℝ) : ℂ)) g.W g.H l k hl' hk',
    Finset.sum_comm]
  exact Finset.sum_congr rfl fun n hn => Finset.sum_congr rfl fun m hm => by ring

/-- C10: on the empty input sequence `DFT_slow` returns the empty complex
sequence: both loops range over nothing, so the `1/N` factor is never
evaluated and no division by zero is reached. -/
theorem DFT_slow_nil : DFT_slow ([] : List ℂ) = ([] : List ℂ) := by
  simp [DFT_slow]

/-- C5: for same-shaped non-empty grids, `psnr` computes
`MSE = mean((G - S)^2)` over all elements in the real (float64) domain,
takes `max_val = max(G)` — the maximum of the actual ground-truth grid — and
returns `20*log10(max_val) - 10*log10(MSE)` (float semantics in `EReal`). -/
theorem psnr_mean_max_formula (gt_img smooth_img : Grid)
    (hH : gt_img.H = smooth_img.H) (hW : gt_img.W = smooth_img.W)
    (hH1 : 1 ≤ gt_img.H) (hW1 : 1 ≤ gt_img.W) :
    psnr gt_img smooth_img = some (
      ((20 : ℝ) : EReal) * flog10 (((Finset.range gt_img.H).sup
        (fun i => (Finset.range gt_img.W).sup (gt_img.data i)) : ℕ) : ℝ) -
      ((10 : ℝ) : EReal) * flog10 (
        (∑ i ∈ Finset.range gt_img.H, ∑ j ∈ Finset.range gt_img.W,
          ((gt_img.data i j : ℝ) - (smooth_img.data i j : ℝ)) ^ 2) /
        ((gt_img.H * gt_img.W : ℕ) : ℝ))) :=
  psnr_eq_of_shape gt_img smooth_img hH hW

/-- Concrete 1-by-1 ground-truth grid of value 3 and 1-by-1 processed grid of
value 1. -/
def gridGT : Grid := ⟨1, 1, fun _ _ => 3⟩

/-- Concrete 1-by-1 processed grid of value 1. -/
def gridSM : Grid := ⟨1, 1, fun _ _ => 1⟩

/-- Witness for C5 at concrete same-shaped 1-by-1 grids. -/
theorem psnr_mean_max_formula_witness :
    (gridGT.H = gridSM.H ∧ gridGT.W = gridSM.W ∧ 1 ≤ gridGT.H ∧ 1 ≤ gridGT.W) ∧
    psnr gridGT gridSM = some (
      ((20 : ℝ) : EReal) * flog10 (((Finset.range gridGT.H).sup
        (fun i => (Finset.range gridGT.W).sup (gridGT.data i)) : ℕ) : ℝ) -
      ((10 : ℝ) : EReal) * flog10 (
        (∑ i ∈ Finset.range gridGT.H, ∑ j ∈ Finset.range gridGT.W,
          ((gridGT.data i j : ℝ) - (gridSM.data i j : ℝ)) ^ 2) /
        ((gridGT.H * gridGT.W : ℕ) : ℝ))) :=
  ⟨⟨rfl, rfl, by decide, by decide⟩,
    psnr_mean_max_formula gridGT gridSM rfl rfl (by decide) (by decide)⟩

/-- C6: for every non-empty grid with at least one nonzero sample,
`psnr(G, G)` is `+∞`: the MSE is zero, its float `log10` is `-∞`, and the
score `20*log10(max) - 10*(-∞)` evaluates to `+∞` rather than crashing. -/
theorem psnr_self_top (g : Grid) (hH : 1 ≤ g.H) (hW : 1 ≤ g.W)
    (hnz : ∃ i j, i < g.H ∧ j < g.W ∧ g.data i j ≠ 0) :
    psnr g g = some (⊤ : EReal) := by
  rw [psnr_eq_of_shape g g rfl rfl]
  have hmse : (∑ i ∈ Finset.range g.H, ∑ j ∈ Finset.range g.W,
      ((g.data i j : ℝ) - (g.data i j : ℝ)) ^ 2) / ((g.H * g.W : ℕ) : ℝ) = 0 := by
    simp
  rw [hmse]
  obtain ⟨i, j, hi, hj, hne0⟩ := hnz
  have hM : 1 ≤ (Finset.range g.H).sup (fun i => (Finset.range g.W).sup (g.data i)) := by
    calc 1 ≤ g.data i j := by omega
    _ ≤ (Finset.range g.W).sup (g.data i) := Finset.le_sup (Finset.mem_range.2 hj)
    _ ≤ (Finset.range g.H).sup (fun i => (Finset.range g.W).sup (g.data i)) :=
        Finset.le_sup (f := fun i => (Finset.range g.W).sup (g.data i))
          (Finset.mem_range.2 hi)
  have hM0 : (((Finset.range g.H).sup
      (fun i => (Finset.range g.W).sup (g.data i)) : ℕ) : ℝ) ≠ 0 :=
    Nat.cast_ne_zero.2 (by omega)
  rw [flog10, flog10, if_neg hM0, if_pos rfl,
    EReal.coe_mul_bot_of_pos (by norm_num), ← EReal.coe_mul]
  exact congrArg some (EReal.sub_bot (EReal.coe_ne_bot _))

/-- Witness for C6 at a concrete 1-by-1 grid with a nonzero sample. -/
theorem psnr_self_top_witness :
    (1 ≤ gridGT.H ∧ 1 ≤ gridGT.W ∧
      ∃ i j, i < gridGT.H ∧ j < gridGT.W ∧ gridGT.data i j ≠ 0) ∧
    psnr gridGT gridGT = some (⊤ : EReal) :=
  ⟨⟨by decide, by decide, ⟨0, 0, by decide, by decide, by decide⟩⟩,
    psnr_self_top gridGT (by decide) (by decide) ⟨0, 0, by decide, by decide, by decide⟩⟩

/-- Concrete 2-by-2 ground-truth grid of 1s. -/
def gridC8gt : Grid := ⟨2, 2, fun _ _ => 1⟩

/-- Concrete 1-by-2 grid of 0s: a shape incompatible with `gridC8gt`, yet
broadcastable against it. -/
def gridC8sm : Grid := ⟨1, 2, fun _ _ => 0⟩

/-- C8 (refuting evaluation): `psnr` performs no shape check.  On a 2-by-2
ground truth of 1s and a 1-by-2 grid of 0s — unequal shapes — it silently
broadcasts the 1-row grid over both rows and returns the numeric score `0`
instead of failing. -/
theorem psnr_broadcast_counterexample :
    gridC8gt.H ≠ gridC8sm.H ∧ psnr gridC8gt gridC8sm = some ((0 : ℝ) : EReal) := by
  refine ⟨by decide, ?_⟩
  unfold psnr
  rw [if_pos ⟨Or.inr (Or.inr rfl), Or.inl rfl⟩]
  norm_num [gridC8gt, gridC8sm, bcast, List.range_succ, flog10, Real.logb_one]

/-- C8 (amended): `psnr` raises an error exactly on shape pairs the array
library cannot broadcast (some dimension pair unequal with neither side 1);
every broadcast-compatible pair — including unequal shapes with a
length-one axis — silently produces a numeric result. -/
theorem psnr_isSome_iff (gt_img smooth_img : Grid) :
    (psnr gt_img smooth_img).isSome = true ↔
      (compatDim gt_img.H smooth_img.H ∧ compatDim gt_img.W smooth_img.W) := by
  unfold psnr
  split_ifs with h <;> simp [h]

/-- Witness for the amended C8 statement at concrete broadcastable grids of
unequal shape. -/
theorem psnr_isSome_iff_witness : (psnr gridC8gt gridC8sm).isSome = true :=
  (psnr_isSome_iff gridC8gt gridC8sm).2 ⟨Or.inr (Or.inr rfl), Or.inl rfl⟩

end HW2
